import Mathlib

/-!
Verification of the bounded live-event buffer and streaming ingestion pipeline
of the depths-components repository.

The development shallowly embeds, from the source:
  - `RingBuffer<T>` and `RingStore<T>` from `components/depths/lib/ringBuffer.ts`;
  - the SSE message handlers and pause semantics of the live widgets
    (`LiveTailList.tsx`, `LiveTracesFeed.tsx`);
  - the snapshot filter pipelines of the live widgets.

JS arrays are modelled as `List (Option T)`: a slot holding `none` models a hole
(`undefined`), written slots hold `some x`.  Machine numbers are modelled as
`Nat`; JS `%` agrees with `Nat.mod` on the nonnegative operands that occur here,
except that in JS `x % 0` is `NaN` while `Nat.mod x 0 = x` — the one place this
matters (advancing `start` past a zero-capacity buffer) is commented at the
claim that touches it, and the value is never observed while the capacity is 0.
-/

namespace Depths

variable {T : Type}

/-- JS array read `l[i]`: reading a hole or an out-of-range index yields
`undefined`, modelled as `none`. -/
def jsGet (l : List (Option T)) (i : Nat) : Option T := l.getD i none

/-- JS array write `l[i] = v`: an in-range write updates the slot; a write past
the end grows the array, filling the gap with holes. -/
def jsSetVal (l : List (Option T)) (i : Nat) (v : Option T) : List (Option T) :=
  if i < l.length then l.set i v
  else l ++ List.replicate (i - l.length) none ++ [v]

theorem jsGet_jsSetVal_self (l : List (Option T)) (i : Nat) (v : Option T) :
    jsGet (jsSetVal l i v) i = v := by
  unfold jsGet jsSetVal
  split
  next h =>
    simp [List.getD_eq_getElem?_getD, List.getElem?_set_self h]
  next h =>
    have hle : l.length ≤ i := Nat.le_of_not_lt h
    rw [List.getD_eq_getElem?_getD, List.append_assoc, List.getElem?_append_right hle,
      List.getElem?_append_right (by simp)]
    simp

theorem jsGet_jsSetVal_ne (l : List (Option T)) (i j : Nat) (v : Option T) (hij : i ≠ j) :
    jsGet (jsSetVal l i v) j = jsGet l j := by
  unfold jsGet jsSetVal
  split
  next h =>
    simp [List.getD_eq_getElem?_getD, List.getElem?_set_ne hij]
  next h =>
    have hle : l.length ≤ i := Nat.le_of_not_lt h
    by_cases hj : j < l.length
    · rw [List.getD_eq_getElem?_getD, List.getD_eq_getElem?_getD, List.append_assoc,
        List.getElem?_append_left hj]
    · have hjl : l.length ≤ j := Nat.le_of_not_lt hj
      rw [List.getD_eq_getElem?_getD, List.getD_eq_getElem?_getD, List.append_assoc,
        List.getElem?_append_right hjl, List.getElem?_eq_none hjl]
      by_cases hji : j < i
      · have hlt : j - l.length < i - l.length := by omega
        rw [List.getElem?_append_left (by simpa using hlt)]
        simp [List.getElem?_replicate, hlt]
      · have hij2 : i < j := by omega
        rw [List.getElem?_append_right (by simp; omega)]
        rw [List.getElem?_eq_none (by simp; omega)]

theorem length_jsSetVal_of_lt (l : List (Option T)) (i : Nat) (v : Option T)
    (h : i < l.length) : (jsSetVal l i v).length = l.length := by
  simp [jsSetVal, h]

/-- Embedding of `RingBuffer<T>` from `ringBuffer.ts`: the backing array `buf`,
the index `start` of the oldest item, the logical `size`, and the `capacity`
passed to the constructor. -/
structure RingBuffer (T : Type) where
  buf : List (Option T)
  start : Nat
  size : Nat
  capacity : Nat
deriving DecidableEq, Repr

/-- Embedding of `new RingBuffer<T>(capacity)`: `new Array<T>(capacity)` is an
array of `capacity` holes, `start = 0`, `size = 0`. -/
def RingBuffer.mk0 (T : Type) (capacity : Nat) : RingBuffer T :=
  ⟨List.replicate capacity none, 0, 0, capacity⟩

/-- Embedding of the body of `push` for an arbitrary JS value (`some x` for a
proper item, `none` for `undefined`).  `setCapacity` replays values read back
from the buffer, which in the embedding are of type `Option T`, hence this
generalisation; `push` itself instantiates it with `some x`. -/
def RingBuffer.pushVal (b : RingBuffer T) (v : Option T) : RingBuffer T :=
  if b.size < b.capacity then
    { b with buf := jsSetVal b.buf ((b.start + b.size) % b.capacity) v,
             size := b.size + 1 }
  else
    { b with buf := jsSetVal b.buf b.start v,
             start := (b.start + 1) % b.capacity }

/-- Embedding of `RingBuffer.push(x)`. -/
def RingBuffer.push (b : RingBuffer T) (x : T) : RingBuffer T := b.pushVal (some x)

/-- Embedding of `RingBuffer.toArrayNewestFirst()`: `out[i] =
buf[(start + size - 1 - i) % capacity]` for `i < size`. -/
def RingBuffer.toArrayNewestFirst (b : RingBuffer T) : List (Option T) :=
  (List.range b.size).map (fun i => jsGet b.buf ((b.start + b.size - 1 - i) % b.capacity))

/-- Embedding of `RingBuffer.setCapacity(n)`: no-op when `n` equals the current
capacity; otherwise read the contents back oldest-first (`toArrayNewestFirst().
reverse()`), reset to a fresh buffer of capacity `n`, and re-push
`cur.slice(0, n)` — the first `n` elements of the oldest-first array. -/
def RingBuffer.setCapacity (b : RingBuffer T) (n : Nat) : RingBuffer T :=
  if n = b.capacity then b
  else
    ((b.toArrayNewestFirst.reverse).take n).foldl RingBuffer.pushVal (RingBuffer.mk0 T n)

/-- Embedding of `RingBuffer.clear()`. -/
def RingBuffer.clear (b : RingBuffer T) : RingBuffer T :=
  { b with start := 0, size := 0 }

/-- Folding `push` over a list of items, oldest first. -/
def RingBuffer.pushList (b : RingBuffer T) (xs : List T) : RingBuffer T :=
  xs.foldl RingBuffer.push b

/-- Well-formedness invariant of a ring buffer, as maintained by the class:
`size ≤ capacity`, and for a positive capacity the start index is in range and
the backing array has exactly `capacity` slots. -/
def RingBuffer.WF (b : RingBuffer T) : Prop :=
  b.size ≤ b.capacity ∧
    (0 < b.capacity → b.start < b.capacity ∧ b.buf.length = b.capacity)

instance (b : RingBuffer T) : Decidable b.WF := by
  unfold RingBuffer.WF
  infer_instance

theorem RingBuffer.WF_mk0 (T : Type) (c : Nat) : (RingBuffer.mk0 T c).WF := by
  constructor
  · exact Nat.zero_le c
  · intro hc
    exact ⟨hc, by simp [RingBuffer.mk0]⟩

theorem RingBuffer.length_toArrayNewestFirst (b : RingBuffer T) :
    b.toArrayNewestFirst.length = b.size := by
  simp [RingBuffer.toArrayNewestFirst]

theorem RingBuffer.WF_pushVal (b : RingBuffer T) (hb : b.WF) (v : Option T) :
    (b.pushVal v).WF := by
  obtain ⟨hsz, hpos⟩ := hb
  unfold RingBuffer.pushVal
  split
  next h =>
    have hc : 0 < b.capacity := Nat.lt_of_le_of_lt (Nat.zero_le _) h
    obtain ⟨hst, hbl⟩ := hpos hc
    refine ⟨h, fun _ => ⟨hst, ?_⟩⟩
    rw [length_jsSetVal_of_lt]
    · exact hbl
    · rw [hbl]; exact Nat.mod_lt _ hc
  next h =>
    by_cases hc : 0 < b.capacity
    · obtain ⟨hst, hbl⟩ := hpos hc
      refine ⟨hsz, fun _ => ⟨Nat.mod_lt _ hc, ?_⟩⟩
      rw [length_jsSetVal_of_lt]
      · exact hbl
      · rw [hbl]; exact hst
    · have hc0 : b.capacity = 0 := Nat.eq_zero_of_not_pos hc
      exact ⟨hsz, fun h0 => absurd (show 0 < b.capacity from h0) (by omega)⟩

theorem RingBuffer.WF_push (b : RingBuffer T) (hb : b.WF) (x : T) :
    (b.push x).WF := RingBuffer.WF_pushVal b hb (some x)

theorem mod_ne_of_gap {C x y : Nat} (hxy : x ≤ y) (hgap0 : 0 < y - x) (hgapC : y - x < C) :
    x % C ≠ y % C := by
  intro h
  have hdvd : C ∣ y - x := (Nat.modEq_iff_dvd' hxy).mp h
  have := Nat.le_of_dvd hgap0 hdvd
  omega

/-- Abstraction of a single push: on the newest-first view, pushing any value
conses it at the front and truncates to the capacity.  This subsumes both the
append branch (`size < capacity`) and the overwrite branch (`size = capacity`),
as well as the zero-capacity no-op. -/
theorem RingBuffer.toArrayNewestFirst_pushVal (b : RingBuffer T) (hb : b.WF) (v : Option T) :
    (b.pushVal v).toArrayNewestFirst = (v :: b.toArrayNewestFirst).take b.capacity := by
  obtain ⟨hsz, hpos⟩ := hb
  rcases Nat.eq_zero_or_pos b.capacity with hc0 | hc
  · have hs0 : b.size = 0 := by omega
    unfold RingBuffer.pushVal RingBuffer.toArrayNewestFirst
    rw [if_neg (by omega)]
    simp [hc0, hs0]
  · obtain ⟨hst, hbl⟩ := hpos hc
    by_cases h : b.size < b.capacity
    · -- append branch: the new slot is written at (start + size) % capacity
      rw [show b.pushVal v =
            { b with buf := jsSetVal b.buf ((b.start + b.size) % b.capacity) v,
                     size := b.size + 1 } from by rw [RingBuffer.pushVal, if_pos h]]
      rw [List.take_of_length_le (by simp [RingBuffer.length_toArrayNewestFirst]; omega)]
      unfold RingBuffer.toArrayNewestFirst
      apply List.ext_getElem
      · simp
      · intro n h1 h2
        simp only [List.getElem_map, List.getElem_range]
        have hn : n < b.size + 1 := by simpa using h1
        cases n with
        | zero =>
          have hidx : b.start + (b.size + 1) - 1 - 0 = b.start + b.size := by omega
          simp only [hidx]
          rw [jsGet_jsSetVal_self]
          rfl
        | succ m =>
          have hm : m < b.size := by omega
          have hidx : b.start + (b.size + 1) - 1 - (m + 1) = b.start + b.size - 1 - m := by
            omega
          simp only [hidx]
          rw [jsGet_jsSetVal_ne]
          · simp [List.getElem_cons_succ, RingBuffer.toArrayNewestFirst]
          · apply Ne.symm
            apply mod_ne_of_gap (C := b.capacity) (by omega) (by omega) (by omega)
    · -- overwrite branch: size = capacity, the oldest slot is overwritten
      have hsC : b.size = b.capacity := by omega
      rw [show b.pushVal v =
            { b with buf := jsSetVal b.buf b.start v,
                     start := (b.start + 1) % b.capacity } from by
        rw [RingBuffer.pushVal, if_neg h]]
      apply List.ext_getElem
      · simp [RingBuffer.length_toArrayNewestFirst, hsC]
      · intro n h1 h2
        rw [List.getElem_take]
        have hn : n < b.capacity := by
          simpa [RingBuffer.length_toArrayNewestFirst, hsC] using h1
        cases n with
        | zero =>
          rw [List.getElem_cons_zero]
          simp only [RingBuffer.toArrayNewestFirst, List.getElem_map, List.getElem_range]
          have hidx : (b.start + 1) % b.capacity + b.size - 1 - 0 =
              (b.start + 1) % b.capacity + (b.capacity - 1) := by omega
          rw [hidx, Nat.mod_add_mod,
            show b.start + 1 + (b.capacity - 1) = b.start + b.capacity from by omega,
            Nat.add_mod_right, Nat.mod_eq_of_lt hst, jsGet_jsSetVal_self]
        | succ m =>
          rw [List.getElem_cons_succ]
          simp only [RingBuffer.toArrayNewestFirst, List.getElem_map, List.getElem_range]
          have hm : m < b.capacity - 1 := by omega
          have hidx : (b.start + 1) % b.capacity + b.size - 1 - (m + 1) =
              (b.start + 1) % b.capacity + (b.capacity - m - 2) := by omega
          rw [hidx, Nat.mod_add_mod,
            show b.start + 1 + (b.capacity - m - 2) = b.start + (b.capacity - m - 1) from by
              omega]
          rw [jsGet_jsSetVal_ne]
          · rw [show b.start + (b.capacity - m - 1) = b.start + b.size - 1 - m from by omega]
          · have hx : b.start % b.capacity ≠ (b.start + (b.capacity - m - 1)) % b.capacity :=
              mod_ne_of_gap (by omega) (by omega) (by omega)
            rw [Nat.mod_eq_of_lt hst] at hx
            exact hx

theorem RingBuffer.WF_clear (b : RingBuffer T) (hb : b.WF) : b.clear.WF := by
  obtain ⟨hsz, hpos⟩ := hb
  exact ⟨Nat.zero_le _, fun hc => ⟨hc, (hpos hc).2⟩⟩

theorem RingBuffer.WF_foldl_pushVal (vs : List (Option T)) (b : RingBuffer T) (hb : b.WF) :
    (vs.foldl RingBuffer.pushVal b).WF := by
  induction vs generalizing b with
  | nil => exact hb
  | cons v tl ih => exact ih _ (RingBuffer.WF_pushVal b hb v)

theorem RingBuffer.capacity_pushVal (b : RingBuffer T) (v : Option T) :
    (b.pushVal v).capacity = b.capacity := by
  unfold RingBuffer.pushVal
  split <;> rfl

theorem RingBuffer.capacity_foldl_pushVal (vs : List (Option T)) (b : RingBuffer T) :
    (vs.foldl RingBuffer.pushVal b).capacity = b.capacity := by
  induction vs generalizing b with
  | nil => rfl
  | cons v tl ih => rw [List.foldl_cons, ih, RingBuffer.capacity_pushVal]

/-- Abstraction of a burst of pushes: the resulting newest-first view is the
pushed values (newest first) in front of the old view, truncated to the
capacity. -/
theorem RingBuffer.toArrayNewestFirst_foldl_pushVal (vs : List (Option T)) (b : RingBuffer T)
    (hb : b.WF) :
    (vs.foldl RingBuffer.pushVal b).toArrayNewestFirst
      = (vs.reverse ++ b.toArrayNewestFirst).take b.capacity := by
  induction vs generalizing b with
  | nil =>
    rw [List.foldl_nil, List.reverse_nil, List.nil_append,
      List.take_of_length_le (by rw [RingBuffer.length_toArrayNewestFirst]; exact hb.1)]
  | cons v tl ih =>
    rw [List.foldl_cons, ih _ (RingBuffer.WF_pushVal b hb v), RingBuffer.capacity_pushVal,
      RingBuffer.toArrayNewestFirst_pushVal b hb v, List.reverse_cons, List.append_assoc,
      List.singleton_append, List.take_append_eq_append_take, List.take_append_eq_append_take,
      List.take_take, Nat.min_eq_left (Nat.sub_le _ _)]

theorem RingBuffer.toArrayNewestFirst_mk0 (T : Type) (c : Nat) :
    (RingBuffer.mk0 T c).toArrayNewestFirst = [] := by
  simp [RingBuffer.mk0, RingBuffer.toArrayNewestFirst]

/-- Characterisation of `setCapacity`: because the source replays
`cur.slice(0, n)` of the OLDEST-first array, the result holds the oldest
`min n size` items (when shrinking, the newest excess items are dropped). -/
theorem RingBuffer.toArrayNewestFirst_setCapacity (b : RingBuffer T) (hb : b.WF) (n : Nat) :
    (b.setCapacity n).toArrayNewestFirst = ((b.toArrayNewestFirst.reverse).take n).reverse := by
  unfold RingBuffer.setCapacity
  split
  next h =>
    rw [h, List.take_of_length_le
        (by rw [List.length_reverse, RingBuffer.length_toArrayNewestFirst]; exact hb.1),
      List.reverse_reverse]
  next h =>
    rw [RingBuffer.toArrayNewestFirst_foldl_pushVal _ _ (RingBuffer.WF_mk0 T n),
      RingBuffer.toArrayNewestFirst_mk0, List.append_nil,
      show (RingBuffer.mk0 T n).capacity = n from rfl,
      List.take_of_length_le (by simp)]

theorem RingBuffer.WF_setCapacity (b : RingBuffer T) (hb : b.WF) (n : Nat) :
    (b.setCapacity n).WF := by
  unfold RingBuffer.setCapacity
  split
  · exact hb
  · exact RingBuffer.WF_foldl_pushVal _ _ (RingBuffer.WF_mk0 T n)

theorem RingBuffer.WF_pushList (b : RingBuffer T) (hb : b.WF) (xs : List T) :
    (b.pushList xs).WF := by
  induction xs generalizing b with
  | nil => exact hb
  | cons x tl ih => exact ih _ (RingBuffer.WF_push b hb x)

theorem RingBuffer.capacity_pushList (b : RingBuffer T) (xs : List T) :
    (b.pushList xs).capacity = b.capacity := by
  induction xs generalizing b with
  | nil => rfl
  | cons x tl ih =>
    show (RingBuffer.pushList _ tl).capacity = _
    rw [ih, RingBuffer.push, RingBuffer.capacity_pushVal]

theorem RingBuffer.pushList_eq_foldl_pushVal (b : RingBuffer T) (xs : List T) :
    b.pushList xs = (xs.map some).foldl RingBuffer.pushVal b := by
  rw [List.foldl_map]
  rfl

/-- Pushing a list of items: the newest-first view is the reversed list in front
of the old view, truncated to the capacity. -/
theorem RingBuffer.toArrayNewestFirst_pushList (b : RingBuffer T) (hb : b.WF) (xs : List T) :
    (b.pushList xs).toArrayNewestFirst
      = (xs.reverse.map some ++ b.toArrayNewestFirst).take b.capacity := by
  rw [RingBuffer.pushList_eq_foldl_pushVal,
    RingBuffer.toArrayNewestFirst_foldl_pushVal _ _ hb, List.map_reverse]

/-- Operations of the public `RingBuffer` API, for stating invariants over
arbitrary operation sequences. -/
inductive RBOp (T : Type) where
  | push (x : T)
  | setCapacity (n : Nat)
  | clear

/-- Application of one API operation. -/
def RBOp.apply (b : RingBuffer T) : RBOp T → RingBuffer T
  | .push x => b.push x
  | .setCapacity n => b.setCapacity n
  | .clear => b.clear

/-- Application of a sequence of API operations, oldest first. -/
def applyOps (b : RingBuffer T) (ops : List (RBOp T)) : RingBuffer T :=
  ops.foldl RBOp.apply b

theorem RingBuffer.WF_applyOps (ops : List (RBOp T)) (b : RingBuffer T) (hb : b.WF) :
    (applyOps b ops).WF := by
  induction ops generalizing b with
  | nil => exact hb
  | cons op tl ih =>
    refine ih _ ?_
    cases op with
    | push x => exact RingBuffer.WF_push b hb x
    | setCapacity n => exact RingBuffer.WF_setCapacity b hb n
    | clear => exact RingBuffer.WF_clear b hb

/-- C2 counterexample: for a buffer of capacity 10 holding 1..10 (10 newest),
`setCapacity 5` does NOT keep the newest five items `[10, 9, 8, 7, 6]` — the
source replays `cur.slice(0, n)` of the oldest-first array, i.e. the oldest
five. -/
theorem claim_C2_counterexample :
    ¬ ((((RingBuffer.mk0 Nat 10).pushList [1, 2, 3, 4, 5, 6, 7, 8, 9, 10]).setCapacity
          5).toArrayNewestFirst
        = [some 10, some 9, some 8, some 7, some 6]) := by
  decide

/-- C2 amended: `setCapacity n` keeps the OLDEST `min n size` items and, when
shrinking, drops the newest excess: the resulting newest-first view is the
reverse of the first `n` elements of the oldest-first view.  In particular, for
a capacity-10 buffer holding `i1..i10` (`i10` newest), `setCapacity 5` yields
`toArrayNewestFirst() = [i5, i4, i3, i2, i1]`. -/
theorem claim_C2_amended (b : RingBuffer T) (hb : b.WF) (n : Nat) :
    (b.setCapacity n).toArrayNewestFirst = ((b.toArrayNewestFirst.reverse).take n).reverse ∧
    (((RingBuffer.mk0 Nat 10).pushList [1, 2, 3, 4, 5, 6, 7, 8, 9, 10]).setCapacity
          5).toArrayNewestFirst
      = [some 5, some 4, some 3, some 2, some 1] :=
  ⟨RingBuffer.toArrayNewestFirst_setCapacity b hb n, by decide⟩

/-- C2 amended witness at a concrete buffer: capacity 10 holding 1..10,
shrunk to 5. -/
theorem claim_C2_amended_witness :
    (((RingBuffer.mk0 Nat 10).pushList [1, 2, 3, 4, 5, 6, 7, 8, 9, 10]).setCapacity
        5).toArrayNewestFirst
      = ((((RingBuffer.mk0 Nat 10).pushList
            [1, 2, 3, 4, 5, 6, 7, 8, 9, 10]).toArrayNewestFirst.reverse).take 5).reverse :=
  (claim_C2_amended ((RingBuffer.mk0 Nat 10).pushList [1, 2, 3, 4, 5, 6, 7, 8, 9, 10])
    (by decide) 5).1

/-- C3: for every capacity and every sequence of pushes, `size` stays at most
the capacity and `toArrayNewestFirst` has length exactly `size`; moreover after
every sequence of API operations (push, setCapacity, clear), `size ≤ capacity`
holds and, when the current capacity is positive, `start` is in range. -/
theorem claim_C3 (T : Type) (C : Nat) :
    (∀ xs : List T,
        ((RingBuffer.mk0 T C).pushList xs).size ≤ C ∧
        ((RingBuffer.mk0 T C).pushList xs).toArrayNewestFirst.length
          = ((RingBuffer.mk0 T C).pushList xs).size) ∧
    (∀ ops : List (RBOp T),
        (applyOps (RingBuffer.mk0 T C) ops).size ≤ (applyOps (RingBuffer.mk0 T C) ops).capacity ∧
        (applyOps (RingBuffer.mk0 T C) ops).toArrayNewestFirst.length
          = (applyOps (RingBuffer.mk0 T C) ops).size ∧
        (0 < (applyOps (RingBuffer.mk0 T C) ops).capacity →
          (applyOps (RingBuffer.mk0 T C) ops).start
            < (applyOps (RingBuffer.mk0 T C) ops).capacity)) := by
  constructor
  · intro xs
    have h := RingBuffer.WF_pushList (RingBuffer.mk0 T C) (RingBuffer.WF_mk0 T C) xs
    have h1 := h.1
    have hcap := RingBuffer.capacity_pushList (RingBuffer.mk0 T C) xs
    have hcap0 : (RingBuffer.mk0 T C).capacity = C := rfl
    exact ⟨by omega, RingBuffer.length_toArrayNewestFirst _⟩
  · intro ops
    have h := RingBuffer.WF_applyOps ops (RingBuffer.mk0 T C) (RingBuffer.WF_mk0 T C)
    exact ⟨h.1, RingBuffer.length_toArrayNewestFirst _, fun hc => (h.2 hc).1⟩

/-- C3 witness at a concrete capacity and operation sequence, discharging the
positivity hypothesis of the start-index bound. -/
theorem claim_C3_witness :
    ((RingBuffer.mk0 Nat 2).pushList [5, 6, 7]).size ≤ 2 ∧
    (applyOps (RingBuffer.mk0 Nat 2) [RBOp.push 5, RBOp.clear]).start
      < (applyOps (RingBuffer.mk0 Nat 2) [RBOp.push 5, RBOp.clear]).capacity := by
  have h := claim_C3 Nat 2
  exact ⟨(h.1 [5, 6, 7]).1, (h.2 [RBOp.push 5, RBOp.clear]).2.2 (by decide)⟩

/-- C4: pushing `C + k` distinct items (`k > 0`) into an empty buffer of
capacity `C > 0` leaves exactly the last `C` items, newest first. -/
theorem claim_C4 (T : Type) (C k : Nat) (xs : List T) (hC : 0 < C) (hk : 0 < k)
    (hlen : xs.length = C + k) (hnd : xs.Nodup) :
    ((RingBuffer.mk0 T C).pushList xs).toArrayNewestFirst = (xs.reverse.take C).map some := by
  rw [RingBuffer.toArrayNewestFirst_pushList _ (RingBuffer.WF_mk0 T C) xs,
    RingBuffer.toArrayNewestFirst_mk0, List.append_nil,
    show (RingBuffer.mk0 T C).capacity = C from rfl, List.map_take]

/-- C4 witness: capacity 2, three distinct pushes leave the last two items
newest first. -/
theorem claim_C4_witness :
    ((RingBuffer.mk0 Nat 2).pushList [1, 2, 3]).toArrayNewestFirst
      = (([1, 2, 3].reverse.take 2).map some) :=
  claim_C4 Nat 2 1 [1, 2, 3] (by decide) (by decide) (by decide) (by decide)

/-- C8 counterexample: pushing into a freshly constructed zero-capacity buffer
is NOT a complete state no-op — the overwrite branch runs, writing the item
into the backing array at `start` and advancing `start` (in JS,
`(0 + 1) % 0` is `NaN`; under `Nat.mod` it is `1` — under both semantics the
stored slots and the start index change). -/
theorem claim_C8_counterexample :
    ¬ ((RingBuffer.mk0 Nat 0).push 7 = RingBuffer.mk0 Nat 0) := by
  decide

/-- C8 amended: pushing into a zero-capacity buffer raises no error and is
OBSERVATIONALLY a no-op — `size` stays 0 and `toArrayNewestFirst()` stays
empty — but the complete state is not unchanged: the item is written into the
backing array at the current `start` index, and `start` is advanced
(to `NaN` in JS, modelled here as `(0 + 1) % 0 = 1`). -/
theorem claim_C8_amended (T : Type) (x : T) :
    ((RingBuffer.mk0 T 0).push x).size = 0 ∧
    ((RingBuffer.mk0 T 0).push x).toArrayNewestFirst = [] ∧
    ((RingBuffer.mk0 T 0).push x).buf = [some x] ∧
    ((RingBuffer.mk0 T 0).push x).start = 1 := by
  refine ⟨?_, ?_, ?_, ?_⟩ <;>
    simp [RingBuffer.mk0, RingBuffer.push, RingBuffer.pushVal, RingBuffer.toArrayNewestFirst,
      jsSetVal]

/-- Published snapshot of a `RingStore`.  `flush` assigns
`this.snapshot = this.rbuf.toArrayNewestFirst()`, a freshly allocated array, so
snapshot object identity is modelled by the allocation counter `id`: two
snapshots of the same store are the same JS array reference exactly when their
`id`s agree. -/
structure Snap (T : Type) where
  id : Nat
  data : List (Option T)
deriving DecidableEq, Repr

/-- Embedding of `RingStore<T>` from `ringBuffer.ts`.  `listeners` models the
insertion-ordered `Set<Listener>` (each listener named by a `Nat`); `raf`
models whether `this.raf != null`, i.e. a scheduled flush is pending;
`nextId` is the allocator counter backing snapshot identity; `notify` is a
log: one entry per executed flush, recording the listeners invoked by
`this.listeners.forEach(fn => fn())`, in iteration order. -/
structure RingStore (T : Type) where
  rbuf : RingBuffer T
  listeners : List Nat
  raf : Bool
  snapshot : Snap T
  nextId : Nat
  notify : List (List Nat)
deriving DecidableEq, Repr

/-- Embedding of `new RingStore<T>(capacity)`: fresh buffer, no listeners, no
pending frame, and the initial empty-array snapshot (allocated at id 0). -/
def RingStore.mk0 (T : Type) (capacity : Nat) : RingStore T :=
  { rbuf := RingBuffer.mk0 T capacity, listeners := [], raf := false,
    snapshot := ⟨0, []⟩, nextId := 1, notify := [] }

/-- Embedding of `RingStore.flush()`: replace the cached snapshot with a fresh
materialisation of the buffer, then invoke every listener once. -/
def RingStore.flush (s : RingStore T) : RingStore T :=
  { s with snapshot := ⟨s.nextId, s.rbuf.toArrayNewestFirst⟩,
           nextId := s.nextId + 1,
           notify := s.notify ++ [s.listeners] }

/-- Embedding of `RingStore.schedule()`: without a `window` (SSR), flush
synchronously; otherwise do nothing when a frame is already pending, else mark
a frame pending. -/
def RingStore.schedule (hasWindow : Bool) (s : RingStore T) : RingStore T :=
  if hasWindow = false then s.flush
  else if s.raf then s
  else { s with raf := true }

/-- The pending `requestAnimationFrame` callback firing: `this.raf = null;
this.flush()`.  A no-op when no frame is pending. -/
def RingStore.runRaf (s : RingStore T) : RingStore T :=
  if s.raf then RingStore.flush { s with raf := false } else s

/-- Embedding of `RingStore.push(x)`: mutate the buffer, then schedule. -/
def RingStore.push (hasWindow : Bool) (s : RingStore T) (x : T) : RingStore T :=
  RingStore.schedule hasWindow { s with rbuf := s.rbuf.push x }

/-- Embedding of `RingStore.setCapacity(n)`: mutate the buffer, then
schedule. -/
def RingStore.setCapacity (hasWindow : Bool) (s : RingStore T) (n : Nat) : RingStore T :=
  RingStore.schedule hasWindow { s with rbuf := s.rbuf.setCapacity n }

/-- Embedding of `RingStore.clear()`: mutate the buffer, then schedule. -/
def RingStore.clear (hasWindow : Bool) (s : RingStore T) : RingStore T :=
  RingStore.schedule hasWindow { s with rbuf := s.rbuf.clear }

/-- Embedding of `RingStore.getSnapshot`: returns the cached snapshot. -/
def RingStore.getSnapshot (s : RingStore T) : Snap T := s.snapshot

/-- Embedding of `RingStore.subscribe(l)`: `Set.add` — a no-op when the
listener is already present, otherwise appended in insertion order. -/
def RingStore.subscribe (s : RingStore T) (l : Nat) : RingStore T :=
  if l ∈ s.listeners then s else { s with listeners := s.listeners ++ [l] }

/-- The disposer returned by `subscribe`: `Set.delete` of that listener. -/
def RingStore.unsubscribe (s : RingStore T) (l : Nat) : RingStore T :=
  { s with listeners := s.listeners.erase l }

/-- A synchronous burst of pushes, oldest first. -/
def RingStore.pushMany (hasWindow : Bool) (s : RingStore T) (xs : List T) : RingStore T :=
  xs.foldl (fun t x => RingStore.push hasWindow t x) s

theorem RingStore.push_true_proj (s : RingStore T) (x : T) :
    (RingStore.push true s x).rbuf = s.rbuf.push x ∧
    (RingStore.push true s x).snapshot = s.snapshot ∧
    (RingStore.push true s x).notify = s.notify ∧
    (RingStore.push true s x).listeners = s.listeners ∧
    (RingStore.push true s x).nextId = s.nextId ∧
    (RingStore.push true s x).raf = true := by
  unfold RingStore.push RingStore.schedule
  by_cases h : s.raf <;> simp [h]

theorem RingStore.pushMany_true_proj (xs : List T) (s : RingStore T) :
    (RingStore.pushMany true s xs).rbuf = s.rbuf.pushList xs ∧
    (RingStore.pushMany true s xs).snapshot = s.snapshot ∧
    (RingStore.pushMany true s xs).notify = s.notify ∧
    (RingStore.pushMany true s xs).listeners = s.listeners ∧
    (RingStore.pushMany true s xs).nextId = s.nextId ∧
    (xs ≠ [] → (RingStore.pushMany true s xs).raf = true) := by
  induction xs generalizing s with
  | nil =>
    exact ⟨rfl, rfl, rfl, rfl, rfl, fun hne => absurd rfl hne⟩
  | cons x tl ih =>
    have hstep := RingStore.push_true_proj s x
    have htl := ih (RingStore.push true s x)
    have hm : RingStore.pushMany true s (x :: tl)
        = RingStore.pushMany true (RingStore.push true s x) tl := rfl
    have hbl : RingBuffer.pushList s.rbuf (x :: tl)
        = RingBuffer.pushList (s.rbuf.push x) tl := rfl
    rw [hm, hbl]
    refine ⟨?_, ?_, ?_, ?_, ?_, ?_⟩
    · rw [htl.1, hstep.1]
    · rw [htl.2.1, hstep.2.1]
    · rw [htl.2.2.1, hstep.2.2.1]
    · rw [htl.2.2.2.1, hstep.2.2.2.1]
    · rw [htl.2.2.2.2.1, hstep.2.2.2.2.1]
    · intro _
      by_cases htl0 : tl = []
      · subst htl0
        exact hstep.2.2.2.2.2
      · exact htl.2.2.2.2.2 htl0

/-- Shared shape of the three mutators under the browser scheduling model:
mutate the buffer, schedule (leaving the snapshot untouched), and on the next
frame flush a fresh snapshot of the mutated buffer. -/
theorem RingStore.mutate_schedule_runRaf (s : RingStore T) (b : RingBuffer T)
    (h : s.snapshot.id < s.nextId) :
    (RingStore.schedule true { s with rbuf := b }).getSnapshot = s.getSnapshot ∧
    (RingStore.schedule true { s with rbuf := b }).runRaf.getSnapshot.id
      ≠ s.getSnapshot.id ∧
    (RingStore.schedule true { s with rbuf := b }).runRaf.getSnapshot.data
      = b.toArrayNewestFirst ∧
    (RingStore.schedule true { s with rbuf := b }).rbuf = b := by
  unfold RingStore.schedule RingStore.runRaf RingStore.flush RingStore.getSnapshot
  by_cases hr : s.raf <;> simp [hr] <;> omega

/-- C1: on a `RingStore` in the browser scheduling model, `push`, `setCapacity`
and `clear` leave the published snapshot reference unchanged (so repeated
`getSnapshot()` calls with no intervening flush return the identical
reference), and after any such mutation the scheduled flush publishes a new,
distinct snapshot whose contents equal `toArrayNewestFirst()` of the buffer at
flush time.  The hypothesis `s.snapshot.id < s.nextId` says the current
snapshot was allocated before the next allocation — true of every store
reachable through the API from the constructor. -/
theorem claim_C1 (T : Type) (s : RingStore T) (x : T) (n : Nat)
    (h : s.snapshot.id < s.nextId) :
    ((RingStore.push true s x).getSnapshot = s.getSnapshot ∧
     (RingStore.setCapacity true s n).getSnapshot = s.getSnapshot ∧
     (RingStore.clear true s).getSnapshot = s.getSnapshot) ∧
    ((RingStore.push true s x).runRaf.getSnapshot.id ≠ s.getSnapshot.id ∧
     (RingStore.push true s x).runRaf.getSnapshot.data
       = (RingStore.push true s x).rbuf.toArrayNewestFirst) ∧
    ((RingStore.setCapacity true s n).runRaf.getSnapshot.id ≠ s.getSnapshot.id ∧
     (RingStore.setCapacity true s n).runRaf.getSnapshot.data
       = (RingStore.setCapacity true s n).rbuf.toArrayNewestFirst) ∧
    ((RingStore.clear true s).runRaf.getSnapshot.id ≠ s.getSnapshot.id ∧
     (RingStore.clear true s).runRaf.getSnapshot.data
       = (RingStore.clear true s).rbuf.toArrayNewestFirst) := by
  have hp := RingStore.mutate_schedule_runRaf s (s.rbuf.push x) h
  have hc := RingStore.mutate_schedule_runRaf s (s.rbuf.setCapacity n) h
  have hl := RingStore.mutate_schedule_runRaf s s.rbuf.clear h
  exact ⟨⟨hp.1, hc.1, hl.1⟩,
    ⟨hp.2.1, hp.2.2.1.trans (congrArg RingBuffer.toArrayNewestFirst hp.2.2.2.symm)⟩,
    ⟨hc.2.1, hc.2.2.1.trans (congrArg RingBuffer.toArrayNewestFirst hc.2.2.2.symm)⟩,
    ⟨hl.2.1, hl.2.2.1.trans (congrArg RingBuffer.toArrayNewestFirst hl.2.2.2.symm)⟩⟩

/-- C1 witness at a concrete store: a fresh store of capacity 2 and one push. -/
theorem claim_C1_witness :
    (RingStore.push true (RingStore.mk0 Nat 2) 5).getSnapshot
        = (RingStore.mk0 Nat 2).getSnapshot ∧
    (RingStore.push true (RingStore.mk0 Nat 2) 5).runRaf.getSnapshot.id
        ≠ (RingStore.mk0 Nat 2).getSnapshot.id :=
  ⟨(claim_C1 Nat (RingStore.mk0 Nat 2) 5 1 (by decide)).1.1,
   (claim_C1 Nat (RingStore.mk0 Nat 2) 5 1 (by decide)).2.1.1⟩

/-- C5: in the browser scheduling model, a synchronous burst of `N ≥ 1` pushes
before the pending frame callback runs publishes no snapshot and performs no
notification during the burst; when the frame callback then runs there is
exactly one flush: exactly one notification round (each subscriber appearing in
it exactly once), and one new, distinct snapshot containing all pushed items
subject to the buffer capacity. -/
theorem claim_C5 (T : Type) (s : RingStore T) (xs : List T)
    (hraf : s.raf = false) (hxs : xs ≠ []) (hid : s.snapshot.id < s.nextId)
    (hnd : s.listeners.Nodup) :
    (RingStore.pushMany true s xs).snapshot = s.snapshot ∧
    (RingStore.pushMany true s xs).notify = s.notify ∧
    (RingStore.pushMany true s xs).runRaf.notify = s.notify ++ [s.listeners] ∧
    (∀ l ∈ s.listeners, s.listeners.count l = 1) ∧
    (RingStore.pushMany true s xs).runRaf.getSnapshot.id ≠ s.getSnapshot.id ∧
    (RingStore.pushMany true s xs).runRaf.getSnapshot.data
      = ((RingStore.pushMany true s xs).rbuf).toArrayNewestFirst ∧
    (s.rbuf.WF →
      (RingStore.pushMany true s xs).runRaf.getSnapshot.data
        = (xs.reverse.map some ++ s.rbuf.toArrayNewestFirst).take s.rbuf.capacity) := by
  have hpm := RingStore.pushMany_true_proj xs s
  have hraf1 : (RingStore.pushMany true s xs).raf = true := hpm.2.2.2.2.2 hxs
  have hrun : (RingStore.pushMany true s xs).runRaf
      = RingStore.flush { RingStore.pushMany true s xs with raf := false } := by
    unfold RingStore.runRaf
    rw [hraf1]
    simp
  refine ⟨hpm.2.1, hpm.2.2.1, ?_, ?_, ?_, ?_, ?_⟩
  · rw [hrun]
    show (RingStore.pushMany true s xs).notify ++ [(RingStore.pushMany true s xs).listeners]
        = s.notify ++ [s.listeners]
    rw [hpm.2.2.1, hpm.2.2.2.1]
  · intro l hl
    exact List.count_eq_one_of_mem hnd hl
  · rw [hrun]
    show ((RingStore.pushMany true s xs).nextId : Nat) ≠ s.getSnapshot.id
    rw [hpm.2.2.2.2.1]
    unfold RingStore.getSnapshot
    omega
  · rw [hrun]
    rfl
  · intro hwf
    rw [hrun]
    show ((RingStore.pushMany true s xs).rbuf).toArrayNewestFirst = _
    rw [hpm.1, RingBuffer.toArrayNewestFirst_pushList s.rbuf hwf xs]

/-- C5 witness: a fresh store of capacity 2 with no pending frame, a burst of
three pushes, then the frame callback. -/
theorem claim_C5_witness :
    (RingStore.pushMany true (RingStore.mk0 Nat 2) [1, 2, 3]).runRaf.notify
        = (RingStore.mk0 Nat 2).notify ++ [(RingStore.mk0 Nat 2).listeners] ∧
    (RingStore.pushMany true (RingStore.mk0 Nat 2) [1, 2, 3]).snapshot
        = (RingStore.mk0 Nat 2).snapshot :=
  ⟨(claim_C5 Nat (RingStore.mk0 Nat 2) [1, 2, 3] rfl (by decide) (by decide)
      (by decide)).2.2.1,
   (claim_C5 Nat (RingStore.mk0 Nat 2) [1, 2, 3] rfl (by decide) (by decide)
      (by decide)).1⟩

/-- C10: `RingStore.subscribe` stores listeners in a set, so re-subscribing an
already subscribed callback has no effect and the callback is still invoked
exactly once per flush; the disposer removes exactly that callback so later
flushes never invoke it; running the same disposer twice is a no-op on the
listener set.  The hypothesis `s.listeners.Nodup` reflects `Set` semantics
(maintained by every API operation from the constructor on). -/
theorem claim_C10 (T : Type) (s : RingStore T) (l : Nat) (hnd : s.listeners.Nodup) :
    (RingStore.subscribe (RingStore.subscribe s l) l = RingStore.subscribe s l) ∧
    (l ∈ (RingStore.subscribe s l).listeners ∧
      ((RingStore.subscribe s l).listeners).count l = 1 ∧
      (RingStore.subscribe s l).flush.notify
        = (RingStore.subscribe s l).notify ++ [(RingStore.subscribe s l).listeners]) ∧
    (l ∉ (RingStore.unsubscribe s l).listeners ∧
      ((RingStore.unsubscribe s l).listeners).count l = 0 ∧
      (RingStore.unsubscribe s l).flush.notify
        = (RingStore.unsubscribe s l).notify ++ [(RingStore.unsubscribe s l).listeners]) ∧
    (RingStore.unsubscribe (RingStore.unsubscribe s l) l = RingStore.unsubscribe s l) := by
  have hnotmem : l ∉ s.listeners.erase l := List.Nodup.not_mem_erase hnd
  refine ⟨?_, ⟨?_, ?_, rfl⟩, ⟨?_, ?_, rfl⟩, ?_⟩
  · by_cases hm : l ∈ s.listeners
    · simp [RingStore.subscribe, hm]
    · simp [RingStore.subscribe, hm]
  · by_cases hm : l ∈ s.listeners <;> simp [RingStore.subscribe, hm]
  · by_cases hm : l ∈ s.listeners
    · simp only [RingStore.subscribe, if_pos hm]
      exact List.count_eq_one_of_mem hnd hm
    · simp only [RingStore.subscribe, if_neg hm]
      rw [List.count_append, List.count_eq_zero.mpr hm, List.count_singleton_self]
  · exact hnotmem
  · exact List.count_eq_zero.mpr hnotmem
  · simp [RingStore.unsubscribe, List.erase_of_not_mem hnotmem]

/-- C10 witness at a concrete store: a fresh store of capacity 2 and listener
number 3. -/
theorem claim_C10_witness :
    RingStore.subscribe (RingStore.subscribe (RingStore.mk0 Nat 2) 3) 3
        = RingStore.subscribe (RingStore.mk0 Nat 2) 3 ∧
    ((RingStore.subscribe (RingStore.mk0 Nat 2) 3).listeners).count 3 = 1 ∧
    3 ∉ (RingStore.unsubscribe (RingStore.mk0 Nat 2) 3).listeners := by
  have h := claim_C10 Nat (RingStore.mk0 Nat 2) 3 (by decide)
  exact ⟨h.1, h.2.1.2.1, h.2.2.1.1⟩

/-- Shape of a JSON value cast to `LogRow` by `JSON.parse(ev.data) as LogRow`:
the cast performs no runtime check, so each required field may be absent. -/
structure JsonLogObject where
  ts : Option Int
  severity : Option String
  service : Option String
  body : Option String
deriving DecidableEq, Repr

/-- Required log-record fields per the external contract: `ts`, `severity`,
`service`, `body`. -/
def hasRequiredLogFields (v : JsonLogObject) : Bool :=
  v.ts.isSome && v.severity.isSome && v.service.isSome && v.body.isSome

/-- Embedding of the `message` handler of `LiveTailList`
(`LiveTailList.tsx`): the input is the outcome of `JSON.parse(ev.data)` —
`none` when the parse throws (caught and ignored), `some v` when it succeeds.
On success the value is pushed with no further validation (the `as LogRow`
cast checks nothing). -/
def liveTailOnMsg (parsed : Option JsonLogObject) (s : RingStore JsonLogObject) :
    RingStore JsonLogObject :=
  match parsed with
  | none => s
  | some v => RingStore.push true s v

/-- C6 counterexample: a successfully parsed JSON object carrying only `ts`
(missing `severity`, `service` and `body`) is NOT dropped by the handler — it
is pushed and the buffer state changes (store of capacity 50, the
`LiveTailList` default). -/
theorem claim_C6_counterexample :
    hasRequiredLogFields ⟨some 0, none, none, none⟩ = false ∧
    (liveTailOnMsg (some ⟨some 0, none, none, none⟩)
        (RingStore.mk0 JsonLogObject 50)).rbuf
      ≠ (RingStore.mk0 JsonLogObject 50).rbuf := by
  exact ⟨rfl, by decide⟩

/-- C6 amended: the handler drops a message exactly when `JSON.parse` throws
(the store, hence buffer state, is untouched, and the handler touches no error
state); a successfully parsed message is pushed with NO field validation — the
buffer gains the record at the front of the newest-first view regardless of
missing required fields. -/
theorem claim_C6_amended (s : RingStore JsonLogObject) (v : JsonLogObject)
    (hwf : s.rbuf.WF) :
    liveTailOnMsg none s = s ∧
    (liveTailOnMsg (some v) s).rbuf.toArrayNewestFirst
      = (some v :: s.rbuf.toArrayNewestFirst).take s.rbuf.capacity := by
  refine ⟨rfl, ?_⟩
  show ((RingStore.push true s v).rbuf).toArrayNewestFirst = _
  rw [(RingStore.push_true_proj s v).1]
  exact RingBuffer.toArrayNewestFirst_pushVal s.rbuf hwf (some v)

/-- C6 amended witness at a concrete store of capacity 50 and a record missing
three required fields. -/
theorem claim_C6_amended_witness :
    liveTailOnMsg none (RingStore.mk0 JsonLogObject 50) = RingStore.mk0 JsonLogObject 50 ∧
    (liveTailOnMsg (some ⟨some 0, none, none, none⟩)
        (RingStore.mk0 JsonLogObject 50)).rbuf.toArrayNewestFirst
      = (some ⟨some 0, none, none, none⟩
          :: (RingStore.mk0 JsonLogObject 50).rbuf.toArrayNewestFirst).take
          (RingStore.mk0 JsonLogObject 50).rbuf.capacity :=
  claim_C6_amended (RingStore.mk0 JsonLogObject 50) ⟨some 0, none, none, none⟩ (by decide)

/-- Shape of a JSON value cast to `TraceSpan` by `JSON.parse(ev.data) as
TraceSpan`; `dur_ms` is a JS number, modelled as `Int`. -/
structure JsonTraceObject where
  trace_id : Option String
  span_id : Option String
  name : Option String
  dur_ms : Option Int
  status : Option String
  ts : Option Int
deriving DecidableEq, Repr

/-- Result of one run of an SSE lifecycle effect: whether a transport
connection is open after the run, and the state transformation that one
delivered message causes while this run is current (`none` models a payload on
which `JSON.parse` throws).  When `connected = false` no message can arrive and
`onMessage` is the identity. -/
structure EffectRun (J S : Type) where
  connected : Bool
  onMessage : Option J → S → S

/-- Embedding of the SSE effect of `LiveTailList` (`LiveTailList.tsx`): when
paused it closes any open `EventSource` and returns without connecting; when
running it connects and its handler pushes every successfully parsed
message. -/
def liveTailListEffect (paused : Bool) :
    EffectRun JsonLogObject (RingStore JsonLogObject) :=
  if paused then { connected := false, onMessage := fun _ s => s }
  else { connected := true, onMessage := liveTailOnMsg }

/-- Embedding of the SSE effect of the sheet-based `LiveTracesFeed` variant
(second segment of `LiveTailList.tsx`): when paused the effect returns without
opening a connection (the cleanup of the previous run already closed it);
when running it connects and pushes every successfully parsed message. -/
def liveTracesFeedSheetEffect (paused : Bool) :
    EffectRun JsonTraceObject (RingStore JsonTraceObject) :=
  if paused then { connected := false, onMessage := fun _ s => s }
  else { connected := true,
         onMessage := fun parsed s =>
           match parsed with
           | none => s
           | some v => RingStore.push true s v }

/-- Embedding of the SSE effect of `LiveTracesFeed` (`LiveTracesFeed.tsx`):
the effect opens an `EventSource` REGARDLESS of `paused`; its handler checks
`if (paused) return` first, then parses, then prepends the parsed value to the
`rows` state and truncates to `bufferSize`. -/
def liveTracesFeedEffect (paused : Bool) (bufferSize : Nat) :
    EffectRun JsonTraceObject (List JsonTraceObject) :=
  { connected := true,
    onMessage := fun parsed rows =>
      if paused then rows
      else
        match parsed with
        | none => rows
        | some v => (v :: rows).take bufferSize }

/-- C7 counterexample: in `LiveTracesFeed.tsx`, the paused effect still opens
a transport connection — `connected` is not `false` while paused, refuting the
claim that every stream-consuming component closes the transport on pause. -/
theorem claim_C7_counterexample :
    ¬ ((liveTracesFeedEffect true 50).connected = false) := by
  decide

/-- C7 amended: `LiveTailList` and the sheet-based `LiveTracesFeed` close the
transport while paused (no connection, handler inert); the standalone
`LiveTracesFeed` keeps a connection open while paused and merely ignores
delivered messages in its handler — so in every component no record reaches
the store while paused, but the transport-closed part holds only for the first
two. -/
theorem claim_C7_amended (bufferSize : Nat) :
    (liveTailListEffect true).connected = false ∧
    (∀ (m : Option JsonLogObject) (s : RingStore JsonLogObject),
      (liveTailListEffect true).onMessage m s = s) ∧
    (liveTracesFeedSheetEffect true).connected = false ∧
    (∀ (m : Option JsonTraceObject) (s : RingStore JsonTraceObject),
      (liveTracesFeedSheetEffect true).onMessage m s = s) ∧
    (liveTracesFeedEffect true bufferSize).connected = true ∧
    (∀ (m : Option JsonTraceObject) (rows : List JsonTraceObject),
      (liveTracesFeedEffect true bufferSize).onMessage m rows = rows) :=
  ⟨rfl, fun _ _ => rfl, rfl, fun _ _ => rfl, rfl, fun _ _ => rfl⟩

/-- Fields of a trace row read by the `LiveTracesFeed` filter pipeline. -/
structure TraceRow where
  status : String
  name : String
  service : Option String
deriving DecidableEq, Repr

/-- Fields of a log row read by the `LiveTailList` filter pipeline. -/
structure LogRecord where
  severity : String
  service : String
  body : String
deriving DecidableEq, Repr

/-- Check that `needle` matches at the head of `hay`. -/
def leadEq : List Char → List Char → Bool
  | [], _ => true
  | _ :: _, [] => false
  | a :: as, b :: bs => a == b && leadEq as bs

/-- Check that `needle` occurs contiguously anywhere in `hay`. -/
def occursIn (needle : List Char) : List Char → Bool
  | [] => leadEq needle []
  | c :: t => leadEq needle (c :: t) || occursIn needle t

/-- JS `hay.includes(needle)`: contiguous substring containment. -/
def jsIncludes (hay needle : String) : Bool :=
  occursIn needle.data hay.data

/-- JS `toLowerCase()`, modelled characterwise by `String.toLower` (agrees on
the ASCII data used by these widgets). -/
def jsToLower (s : String) : String := s.toLower

/-- JS `trim()`: strip whitespace from both ends (modelled on the character
list so that it evaluates by kernel reduction). -/
def jsTrim (s : String) : String :=
  ⟨((s.data.dropWhile Char.isWhitespace).reverse.dropWhile Char.isWhitespace).reverse⟩

/-- Embedding of the `filtered` memo of the sheet-based `LiveTracesFeed`
(second segment of `LiveTailList.tsx`), applied in source order: (1) when the
allow-list `statusFilter` is non-empty, keep only rows whose status it
contains; (2) when the hidden set `statusHidden` is non-empty, remove rows
whose status it contains; (3) when the query is non-empty after trimming,
keep rows whose lower-cased `name` or `service ?? ''` contains the lower-cased
query. -/
def tracesFiltered (statusFilter : List String) (statusHidden : List String)
    (query : String) (snapshot : List TraceRow) : List TraceRow :=
  let cur1 := if statusFilter ≠ [] then
      snapshot.filter (fun r => statusFilter.contains r.status)
    else snapshot
  let cur2 := if statusHidden ≠ [] then
      cur1.filter (fun r => !(statusHidden.contains r.status))
    else cur1
  if jsTrim query ≠ "" then
    cur2.filter (fun r =>
      jsIncludes (jsToLower r.name) (jsToLower query)
        || jsIncludes (jsToLower (r.service.getD "")) (jsToLower query))
  else cur2

/-- Embedding of the `filtered` memo of `LiveTailList` (`LiveTailList.tsx`):
allow-list by severity when non-empty, then case-insensitive substring query
against `body` and `service` when the query is non-empty after trimming. -/
def logsFiltered (severityFilter : List String) (searchQuery : String)
    (snapshot : List LogRecord) : List LogRecord :=
  let cur := if severityFilter ≠ [] then
      snapshot.filter (fun r => severityFilter.contains r.severity)
    else snapshot
  if jsTrim searchQuery ≠ "" then
    cur.filter (fun r =>
      jsIncludes (jsToLower r.body) (jsToLower searchQuery)
        || jsIncludes (jsToLower r.service) (jsToLower searchQuery))
  else cur

/-- C9: both filter pipelines are pure functions whose output is a subsequence
of the input snapshot (newest-first relative order preserved), and for any
snapshot whose statuses are drawn from info/warn/error, the allow-list
`[warn, error]` combined with the hidden set `{error}` yields exactly the warn
rows in original relative order. -/
theorem claim_C9 :
    (∀ (a h : List String) (q : String) (s : List TraceRow),
        (tracesFiltered a h q s).Sublist s) ∧
    (∀ (a : List String) (q : String) (s : List LogRecord),
        (logsFiltered a q s).Sublist s) ∧
    (∀ s : List TraceRow,
        (∀ r ∈ s, r.status = "info" ∨ r.status = "warn" ∨ r.status = "error") →
        tracesFiltered ["warn", "error"] ["error"] "" s
          = s.filter (fun r => r.status == "warn")) := by
  refine ⟨?_, ?_, ?_⟩
  · intro a h q s
    simp only [tracesFiltered]
    split <;> split <;> split <;>
      first
      | exact List.Sublist.refl _
      | exact List.filter_sublist _
      | exact (List.filter_sublist _).trans (List.filter_sublist _)
      | exact ((List.filter_sublist _).trans (List.filter_sublist _)).trans
          (List.filter_sublist _)
  · intro a q s
    simp only [logsFiltered]
    split <;> split <;>
      first
      | exact List.Sublist.refl _
      | exact List.filter_sublist _
      | exact (List.filter_sublist _).trans (List.filter_sublist _)
  · intro s hs
    simp only [tracesFiltered]
    rw [if_neg (by decide), if_pos (by decide), if_pos (by decide)]
    rw [List.filter_filter]
    apply List.filter_congr
    intro r hr
    rcases hs r hr with h | h | h <;> rw [h] <;> decide

/-- C9 witness: a concrete four-row snapshot with statuses error, warn, info,
warn filters down to exactly the two warn rows, in order. -/
theorem claim_C9_witness :
    tracesFiltered ["warn", "error"] ["error"] ""
        [⟨"error", "a", none⟩, ⟨"warn", "b", some "x"⟩, ⟨"info", "c", none⟩,
          ⟨"warn", "d", none⟩]
      = [⟨"warn", "b", some "x"⟩, ⟨"warn", "d", none⟩] := by
  have h := claim_C9.2.2
      [⟨"error", "a", none⟩, ⟨"warn", "b", some "x"⟩, ⟨"info", "c", none⟩,
        ⟨"warn", "d", none⟩]
      (by decide)
  exact h.trans (by decide)

end Depths
